import Mathlib

/-!
Shallow embedding of the quicly Reno congestion controller (lib/cc-reno.c)
and proofs about the claims of its specification.

All 32-bit fields are modelled as Nat reduced modulo 4294967296 (2^32)
wherever the C arithmetic can wrap; the 64-bit fields are reduced modulo
18446744073709551616 (2^64).  The struct layout of quicly_cc_t comes from
the spec, section 3, since the header quicly/cc.h is not part of the
sources given; the widths used there (32-bit windows and per-episode
counter, 64-bit packet numbers and episode counter) are the ones the
handlers in cc-reno.c rely on.  The impl dispatch pointer carries no data
and is omitted.  The unused loss and now parameters of the handlers are
omitted as well.
-/

/-- QUICLY_MIN_CWND from cc-reno.c. -/
def QUICLY_MIN_CWND : Nat := 2

/-- QUICLY_RENO_LOSS_THRESHOLD from cc-reno.c. -/
def QUICLY_RENO_LOSS_THRESHOLD : Nat := 2

/-- 2^32, the modulus of the uint32_t fields. -/
def U32 : Nat := 4294967296

/-- 2^64, the modulus of the uint64_t fields. -/
def U64 : Nat := 18446744073709551616

/-- The integer significand of the IEEE-754 double nearest to 0.7
(QUICLY_RENO_BETA): the double 0.7 is exactly BETA_SIG / 2^52. -/
def BETA_SIG : Nat := 3152519739159347

/-- Floor of the base-2 logarithm, computed with explicit fuel so that the
definition is structural and kernel-evaluable.  For n < 2^fuel and n > 0 it
returns the exact floor log. -/
def floorLog2 (fuel n : Nat) : Nat :=
  match fuel with
  | 0 => 0
  | f + 1 => if n ≤ 1 then 0 else floorLog2 f (n / 2) + 1

/-- Round N to the nearest multiple of 2^s, ties to the even multiple:
the rounding used by IEEE-754 binary arithmetic. -/
def roundNearestEven (N s : Nat) : Nat :=
  if s = 0 then N
  else if N % 2 ^ s < 2 ^ (s - 1) then N / 2 ^ s * 2 ^ s
  else if 2 ^ (s - 1) < N % 2 ^ s then (N / 2 ^ s + 1) * 2 ^ s
  else if N / 2 ^ s % 2 = 0 then N / 2 ^ s * 2 ^ s
  else (N / 2 ^ s + 1) * 2 ^ s

/-- Model of the C expression (uint32_t)((double)c * QUICLY_RENO_BETA) for
c < 2^32, from line 85 of cc-reno.c.  The conversion of c to double is
exact (c < 2^53); the product c * 0.7 has the exact value
(c * BETA_SIG) / 2^52, which the double multiplication rounds to nearest
even at 53 significant bits; the conversion back to uint32_t truncates
toward zero.  A value N / 2^52 lies in the binade starting at
2^(log2 N - 52), where doubles are the multiples of 2^(log2 N - 104), so
rounding the value to a double is rounding N to a multiple of
2^(log2 N - 52); when N < 2^53 the value is already a double. -/
def mulBetaTrunc (c : Nat) : Nat :=
  if c * BETA_SIG < 2 ^ 53 then c * BETA_SIG / 2 ^ 52
  else roundNearestEven (c * BETA_SIG) (floorLog2 84 (c * BETA_SIG) - 52) / 2 ^ 52

/-- The controller state quicly_cc_t (spec section 3; header not in src).
Reno-specific sub-state (num_lost_in_episode, stash) is inlined. -/
structure quicly_cc_t where
  cwnd : Nat
  cwnd_initial : Nat
  cwnd_maximum : Nat
  cwnd_minimum : Nat
  cwnd_exiting_slow_start : Nat
  ssthresh : Nat
  recovery_end : Nat
  num_loss_episodes : Nat
  num_lost_in_episode : Nat
  stash : Nat
  deriving Repr, DecidableEq

/-- reno_on_acked from cc-reno.c, lines 30-57, after the assert has
passed.  bytes, inflight, max_udp_payload_size are uint32_t values,
largest_acked a uint64_t value; inflight is unused past the assert. -/
def reno_on_acked (cc : quicly_cc_t) (bytes largest_acked inflight max_udp_payload_size : Nat) :
    quicly_cc_t :=
  if largest_acked < cc.recovery_end ∧ QUICLY_RENO_LOSS_THRESHOLD ≤ cc.num_lost_in_episode then
    cc
  else if cc.cwnd < cc.ssthresh then
    let cwnd := (cc.cwnd + bytes) % U32
    { cc with
      cwnd := cwnd
      cwnd_maximum := if cc.cwnd_maximum < cwnd then cwnd else cc.cwnd_maximum }
  else
    let stash := (cc.stash + bytes) % U32
    if stash < cc.cwnd then { cc with stash := stash }
    else
      let count := stash / cc.cwnd
      let cwnd := (cc.cwnd + count * max_udp_payload_size % U32) % U32
      { cc with
        stash := stash - count * cc.cwnd
        cwnd := cwnd
        cwnd_maximum := if cc.cwnd_maximum < cwnd then cwnd else cc.cwnd_maximum }

/-- reno_on_acked with exact (unbounded) arithmetic in place of the
uint32_t arithmetic: the mathematical result the spec section 7 asserts
the stored values always equal. -/
def reno_on_acked_exact (cc : quicly_cc_t) (bytes largest_acked inflight max_udp_payload_size : Nat) :
    quicly_cc_t :=
  if largest_acked < cc.recovery_end ∧ QUICLY_RENO_LOSS_THRESHOLD ≤ cc.num_lost_in_episode then
    cc
  else if cc.cwnd < cc.ssthresh then
    let cwnd := cc.cwnd + bytes
    { cc with
      cwnd := cwnd
      cwnd_maximum := if cc.cwnd_maximum < cwnd then cwnd else cc.cwnd_maximum }
  else
    let stash := cc.stash + bytes
    if stash < cc.cwnd then { cc with stash := stash }
    else
      let count := stash / cc.cwnd
      let cwnd := cc.cwnd + count * max_udp_payload_size
      { cc with
        stash := stash - count * cc.cwnd
        cwnd := cwnd
        cwnd_maximum := if cc.cwnd_maximum < cwnd then cwnd else cc.cwnd_maximum }

/-- reno_on_lost from cc-reno.c, lines 59-92.  bytes and
max_udp_payload_size are uint32_t values, lost_pn and next_pn uint64_t
values. -/
def reno_on_lost (cc : quicly_cc_t) (bytes lost_pn next_pn max_udp_payload_size : Nat) :
    quicly_cc_t :=
  let cc1 :=
    if cc.recovery_end ≤ lost_pn then
      { cc with recovery_end := next_pn % U64, num_lost_in_episode := 0 }
    else cc
  let cc2 := { cc1 with num_lost_in_episode := (cc1.num_lost_in_episode + 1) % U32 }
  if cc2.num_lost_in_episode ≠ QUICLY_RENO_LOSS_THRESHOLD then cc2
  else
    let cc3 :=
      { cc2 with
        num_loss_episodes := (cc2.num_loss_episodes + 1) % U64
        cwnd_exiting_slow_start :=
          if cc2.cwnd_exiting_slow_start = 0 then cc2.cwnd else cc2.cwnd_exiting_slow_start }
    let reduced := mulBetaTrunc cc3.cwnd
    let floor := QUICLY_MIN_CWND * max_udp_payload_size % U32
    let w := if reduced < floor then floor else reduced
    { cc3 with
      cwnd := w
      ssthresh := w
      cwnd_minimum := if w < cc3.cwnd_minimum then w else cc3.cwnd_minimum }

/-- reno_on_sent from cc-reno.c, lines 99-102: a no-op. -/
def reno_on_sent (cc : quicly_cc_t) (bytes : Nat) : quicly_cc_t := cc

/-- reno_on_persistent_congestion from cc-reno.c, lines 94-97: a no-op. -/
def reno_on_persistent_congestion (cc : quicly_cc_t) : quicly_cc_t := cc

/-- reno_init from cc-reno.c, lines 107-113: memset to zero, then the
window fields set to initcwnd and ssthresh and cwnd_minimum to
UINT32_MAX. -/
def reno_init (initcwnd : Nat) : quicly_cc_t :=
  { cwnd := initcwnd
    cwnd_initial := initcwnd
    cwnd_maximum := initcwnd
    cwnd_minimum := U32 - 1
    cwnd_exiting_slow_start := 0
    ssthresh := U32 - 1
    recovery_end := 0
    num_loss_episodes := 0
    num_lost_in_episode := 0
    stash := 0 }

/-- quicly_cc_calc_initial_cwnd from cc-reno.c, lines 117-128.
max_packets is a uint32_t value, max_udp_payload_size a uint16_t value;
the product is computed in uint32_t. -/
def quicly_cc_calc_initial_cwnd (max_packets max_udp_payload_size : Nat) : Nat :=
  let mtu_max := 1472
  let mp := if max_packets < QUICLY_MIN_CWND then QUICLY_MIN_CWND else max_packets
  let ms := if mtu_max < max_udp_payload_size then mtu_max else max_udp_payload_size
  mp * ms % U32

/-- Arguments of one reno_on_acked call. -/
structure AckCall where
  bytes : Nat
  largest_acked : Nat
  inflight : Nat
  max_udp_payload_size : Nat
  deriving Repr, DecidableEq

/-- Arguments of one reno_on_lost call. -/
structure LostCall where
  bytes : Nat
  lost_pn : Nat
  next_pn : Nat
  max_udp_payload_size : Nat
  deriving Repr, DecidableEq

/-- One reno_on_acked call as a state transformer. -/
def ackStep (cc : quicly_cc_t) (c : AckCall) : quicly_cc_t :=
  reno_on_acked cc c.bytes c.largest_acked c.inflight c.max_udp_payload_size

/-- One reno_on_lost call as a state transformer. -/
def lostStep (cc : quicly_cc_t) (c : LostCall) : quicly_cc_t :=
  reno_on_lost cc c.bytes c.lost_pn c.next_pn c.max_udp_payload_size

/-- A sequence of reno_on_acked calls. -/
def renoAckSeq (cc : quicly_cc_t) (l : List AckCall) : quicly_cc_t :=
  List.foldl ackStep cc l

/-- A sequence of reno_on_lost calls. -/
def renoLostSeq (cc : quicly_cc_t) (l : List LostCall) : quicly_cc_t :=
  List.foldl lostStep cc l

/-- Any handler invocation (spec section 6): the event alphabet of the
controller lifetime. -/
inductive Event where
  | acked (c : AckCall) : Event
  | lost (c : LostCall) : Event
  | sent (bytes : Nat) : Event
  | persistentCongestion : Event
  deriving Repr, DecidableEq

/-- Dispatch of one event to its handler. -/
def ccStep (cc : quicly_cc_t) (e : Event) : quicly_cc_t :=
  match e with
  | Event.acked c => ackStep cc c
  | Event.lost c => lostStep cc c
  | Event.sent b => reno_on_sent cc b
  | Event.persistentCongestion => reno_on_persistent_congestion cc

/-- A whole lifetime of handler calls. -/
def ccSeq (cc : quicly_cc_t) (l : List Event) : quicly_cc_t :=
  List.foldl ccStep cc l

/-- The growth-suppression test of reno_on_acked, lines 36-38: true when
the acknowledgment falls inside the recovery episode and the episode has
reached the loss threshold. -/
def ackSuppressed (cc : quicly_cc_t) (c : AckCall) : Bool :=
  decide (c.largest_acked < cc.recovery_end ∧ QUICLY_RENO_LOSS_THRESHOLD ≤ cc.num_lost_in_episode)

/-- Checks that every call of the list is taken in slow start
(cwnd < ssthresh at the moment of the call) and is not suppressed by the
recovery check. -/
def slowStartRun (cc : quicly_cc_t) : List AckCall → Bool
  | [] => true
  | c :: rest =>
    decide (cc.cwnd < cc.ssthresh) && !ackSuppressed cc c && slowStartRun (ackStep cc c) rest

/-- Sum of the bytes arguments of a list of acknowledgment calls. -/
def sumBytes (l : List AckCall) : Nat :=
  l.foldr (fun c n => c.bytes + n) 0

/-- True when the reduction branch of reno_on_lost (lines 80-91) fires on
this call from this state: the incremented per-episode loss counter equals
the loss threshold. -/
def lostFires (cc : quicly_cc_t) (c : LostCall) : Bool :=
  decide
    (((if cc.recovery_end ≤ c.lost_pn then 0 else cc.num_lost_in_episode) + 1) % U32 =
      QUICLY_RENO_LOSS_THRESHOLD)

/-- Number of calls of the list on which the reduction branch of
reno_on_lost fires. -/
def countFired (cc : quicly_cc_t) : List LostCall → Nat
  | [] => 0
  | c :: rest => (if lostFires cc c then 1 else 0) + countFired (lostStep cc c) rest

/-- Number of calls of the list that strictly decrease cwnd. -/
def countCwndDecr (cc : quicly_cc_t) : List LostCall → Nat
  | [] => 0
  | c :: rest =>
    (if (lostStep cc c).cwnd < cc.cwnd then 1 else 0) + countCwndDecr (lostStep cc c) rest

/-- An in-episode loss report (packet 5 is below the recovery_end of 100
set when the episode started). -/
def c2call : LostCall := { bytes := 0, lost_pn := 5, next_pn := 7, max_udp_payload_size := 1472 }

/-- The state right after the first loss of an episode: obtained from a
fresh controller (initial window 10000) by one loss of packet 0 when the
next packet number is 100. -/
def c2state : quicly_cc_t := reno_on_lost (reno_init 10000) 0 0 100 1472

/-- One more in-episode loss than it takes the 32-bit per-episode loss
counter to wrap around. -/
def c2calls : List LostCall := List.replicate (U32 + 1) c2call

/-- The value of lostStep c2state c2call: the state right after the
reduction of the first episode (cwnd 10000 cut to 7000). -/
def S1lit : quicly_cc_t :=
  { cwnd := 7000
    cwnd_initial := 10000
    cwnd_maximum := 10000
    cwnd_minimum := 7000
    cwnd_exiting_slow_start := 10000
    ssthresh := 7000
    recovery_end := 100
    num_loss_episodes := 1
    num_lost_in_episode := 2
    stash := 0 }

/-- S1lit after 2^32 - 1 further in-episode losses: the 32-bit counter
has wrapped around to 1. -/
def S2lit : quicly_cc_t :=
  { cwnd := 7000
    cwnd_initial := 10000
    cwnd_maximum := 10000
    cwnd_minimum := 7000
    cwnd_exiting_slow_start := 10000
    ssthresh := 7000
    recovery_end := 100
    num_loss_episodes := 1
    num_lost_in_episode := 1
    stash := 0 }

/-- A lifetime prefix: a reduction episode (losses of packets 0 and 1)
followed by congestion-avoidance growth of cwnd from 7000 to 11000, then
the first loss of a second episode. -/
def c6events : List Event :=
  [Event.lost { bytes := 0, lost_pn := 0, next_pn := 10, max_udp_payload_size := 1000 },
   Event.lost { bytes := 0, lost_pn := 1, next_pn := 10, max_udp_payload_size := 1000 },
   Event.acked { bytes := 7000, largest_acked := 100, inflight := 7000, max_udp_payload_size := 1000 },
   Event.acked { bytes := 8000, largest_acked := 101, inflight := 8000, max_udp_payload_size := 1000 },
   Event.acked { bytes := 9000, largest_acked := 102, inflight := 9000, max_udp_payload_size := 1000 },
   Event.acked { bytes := 10000, largest_acked := 103, inflight := 10000, max_udp_payload_size := 1000 },
   Event.lost { bytes := 0, lost_pn := 20, next_pn := 40, max_udp_payload_size := 1000 }]

/-- A congestion-avoidance state: cwnd at or above ssthresh, with some
bytes already stashed. -/
def c4state : quicly_cc_t :=
  { cwnd := 10000
    cwnd_initial := 14720
    cwnd_maximum := 14720
    cwnd_minimum := 7000
    cwnd_exiting_slow_start := 14720
    ssthresh := 7000
    recovery_end := 10
    num_loss_episodes := 1
    num_lost_in_episode := 1
    stash := 9000 }

/-- An acknowledgment outside the recovery episode. -/
def c4call : AckCall :=
  { bytes := 6000, largest_acked := 100, inflight := 6000, max_udp_payload_size := 1472 }

/-- Bool test that a loss report falls inside the episode recorded in the
given state (its packet number is below recovery_end). -/
def inEpisodeOf (cc : quicly_cc_t) (c : LostCall) : Bool :=
  decide (c.lost_pn < cc.recovery_end)

/-- A small acknowledgment arriving right after construction with the
largest representable initial window. -/
def c3call : AckCall :=
  { bytes := 100, largest_acked := 0, inflight := 100, max_udp_payload_size := 1472 }

/-- The slow-start scenario of the spec, section 8: one full initial
window of 10 segments acknowledged at once. -/
def c3wcall : AckCall :=
  { bytes := 14720, largest_acked := 0, inflight := 14720, max_udp_payload_size := 1472 }

/-! ### Helper lemmas about the model of the double multiplication -/

theorem floorLog2_spec : ∀ (fuel n : Nat), 0 < n → n < 2 ^ fuel →
    2 ^ floorLog2 fuel n ≤ n ∧ n < 2 ^ (floorLog2 fuel n + 1) := by
  intro fuel
  induction fuel with
  | zero =>
    intro n h1 h2
    simp at h2
    omega
  | succ f ih =>
    intro n h1 h2
    rw [floorLog2]
    by_cases hn : n ≤ 1
    · have hone : n = 1 := by omega
      subst hone
      simp
    · simp only [if_neg hn]
      have hpos : 0 < n / 2 := by omega
      have hlt : n / 2 < 2 ^ f := by
        have : n < 2 ^ f * 2 := by rw [← pow_succ]; exact h2
        omega
      obtain ⟨ha, hb⟩ := ih (n / 2) hpos hlt
      constructor
      · calc 2 ^ (floorLog2 f (n / 2) + 1) = 2 ^ floorLog2 f (n / 2) * 2 := by rw [pow_succ]
          _ ≤ (n / 2) * 2 := by omega
          _ ≤ n := by omega
      · calc n < (n / 2) * 2 + 2 := by omega
          _ ≤ 2 ^ (floorLog2 f (n / 2) + 1) * 2 := by omega
          _ = 2 ^ (floorLog2 f (n / 2) + 1 + 1) := (pow_succ 2 (floorLog2 f (n / 2) + 1)).symm

theorem roundNearestEven_le (N s : Nat) : roundNearestEven N s ≤ N + 2 ^ s := by
  unfold roundNearestEven
  split_ifs
  · exact Nat.le_add_right N _
  · exact le_trans (Nat.div_mul_le_self N _) (Nat.le_add_right N _)
  · rw [add_mul, one_mul]
    exact Nat.add_le_add_right (Nat.div_mul_le_self N _) _
  · exact le_trans (Nat.div_mul_le_self N _) (Nat.le_add_right N _)
  · rw [add_mul, one_mul]
    exact Nat.add_le_add_right (Nat.div_mul_le_self N _) _

/-- Truncated multiplication by the double 0.7 never exceeds its
argument. -/
theorem mulBetaTrunc_le (c : Nat) (hc : c < U32) : mulBetaTrunc c ≤ c := by
  rcases Nat.eq_zero_or_pos c with h0 | hpos
  · subst h0; decide
  · have hB : BETA_SIG < 2 ^ 52 := by norm_num [BETA_SIG]
    have hNc : c * BETA_SIG < 2 ^ 52 * c := by
      rw [mul_comm]
      exact mul_lt_mul_of_pos_right hB hpos
    unfold mulBetaTrunc
    split_ifs with hsmall
    · exact le_of_lt (Nat.div_lt_of_lt_mul hNc)
    · set N := c * BETA_SIG with hN
      have hNpos : 0 < N := Nat.mul_pos hpos (by norm_num [BETA_SIG])
      have hc32 : c ≤ 2 ^ 32 := by
        have h32 : (2 : Nat) ^ 32 = 4294967296 := by norm_num
        unfold U32 at hc
        omega
      have hN84 : N < 2 ^ 84 := by
        calc N < 2 ^ 52 * c := hNc
          _ ≤ 2 ^ 52 * 2 ^ 32 := Nat.mul_le_mul_left _ hc32
          _ = 2 ^ 84 := by rw [← pow_add]
      have hfl := floorLog2_spec 84 N hNpos hN84
      set L := floorLog2 84 N with hL
      have hL53 : 53 ≤ L := by
        by_contra hcon
        push_neg at hcon
        have hpow : (2 : Nat) ^ (L + 1) ≤ 2 ^ 53 := Nat.pow_le_pow_right (by norm_num) (by omega)
        have h53 : (2 : Nat) ^ 53 = 9007199254740992 := by norm_num
        omega
      have hsplit : (2 : Nat) ^ (L - 52) * 2 ^ 52 = 2 ^ L := by
        rw [← pow_add]
        congr 1
        omega
      have hsle : 2 ^ (L - 52) ≤ N / 2 ^ 52 :=
        (Nat.le_div_iff_mul_le (by positivity)).mpr (by rw [hsplit]; exact hfl.1)
      have hdivlt : N / 2 ^ 52 < c := Nat.div_lt_of_lt_mul hNc
      have hrle : roundNearestEven N (L - 52) ≤ N + 2 ^ (L - 52) := roundNearestEven_le N (L - 52)
      have hlt : roundNearestEven N (L - 52) < 2 ^ 52 * c := by
        have h2 : N + c ≤ 2 ^ 52 * c := by
          rw [hN, mul_comm (2 ^ 52 : Nat) c, ← Nat.mul_succ]
          exact Nat.mul_le_mul_left c (by norm_num [BETA_SIG])
        omega
      exact le_of_lt (Nat.div_lt_of_lt_mul hlt)

/-! ### Claim theorems -/

/-- C5: an on_lost call whose lost packet number is at or beyond the
current recovery_end sets recovery_end to the next-packet-number argument
and leaves num_lost_in_episode equal to exactly 1. -/
theorem C5_new_episode_resets_counter (cc : quicly_cc_t) (bytes lost_pn next_pn mups : Nat)
    (hpn : next_pn < U64) (h : cc.recovery_end ≤ lost_pn) :
    (reno_on_lost cc bytes lost_pn next_pn mups).recovery_end = next_pn ∧
    (reno_on_lost cc bytes lost_pn next_pn mups).num_lost_in_episode = 1 := by
  simp [reno_on_lost, h, Nat.mod_eq_of_lt hpn, U32, QUICLY_RENO_LOSS_THRESHOLD]

/-- Witness for C5 at a concrete input. -/
theorem C5_witness :
    (reno_on_lost (reno_init 5000) 0 3 9 1472).recovery_end = 3 + 6 ∧
    (reno_on_lost (reno_init 5000) 0 3 9 1472).num_lost_in_episode = 1 :=
  C5_new_episode_resets_counter (reno_init 5000) 0 3 9 1472 (by decide) (by decide)

/-- C10: an on_acked call inside the recovery episode with the per-episode
loss count at the threshold leaves the whole controller state
unchanged. -/
theorem C10_suppressed_ack_is_noop (cc : quicly_cc_t) (bytes la infl mups : Nat)
    (h1 : la < cc.recovery_end) (h2 : QUICLY_RENO_LOSS_THRESHOLD ≤ cc.num_lost_in_episode) :
    reno_on_acked cc bytes la infl mups = cc := by
  simp [reno_on_acked, h1, h2]

/-- Witness for C10 at a concrete input (the state reached from a fresh
controller after a two-loss episode). -/
theorem C10_witness :
    reno_on_acked (lostStep c2state c2call) 500 50 500 1472 = lostStep c2state c2call :=
  C10_suppressed_ack_is_noop (lostStep c2state c2call) 500 50 500 1472 (by decide) (by decide)

/-- C8 counterexample: for max_packets = 3000000 the uint32_t product
wraps, so the function does not return the mathematical product
max(max_packets, 2) times min(max_udp_payload_size, 1472). -/
theorem C8_counterexample :
    quicly_cc_calc_initial_cwnd 3000000 1472 ≠ max 3000000 2 * min 1472 1472 := by
  decide

/-- C8 amended: the function returns the product of the clamped arguments
reduced modulo 2^32 (the uint32_t multiplication); it equals the
mathematical product whenever that product fits in 32 bits, as in the
claim instance calc_initial_cwnd(1, 2000) = 2944. -/
theorem C8_clamped_product_mod (mp ms : Nat) (hms : ms < 65536) :
    quicly_cc_calc_initial_cwnd mp ms = max mp QUICLY_MIN_CWND * min ms 1472 % U32 := by
  have h1 : (if mp < 2 then 2 else mp) = max mp 2 := by
    rw [Nat.max_def]
    split_ifs <;> omega
  have h2 : (if 1472 < ms then 1472 else ms) = min ms 1472 := by
    rw [Nat.min_def]
    split_ifs <;> omega
  simp only [quicly_cc_calc_initial_cwnd, QUICLY_MIN_CWND] at *
  rw [h1, h2]

/-- Witness for C8 at the concrete input of the claim: the result is
2944. -/
theorem C8_witness :
    quicly_cc_calc_initial_cwnd 1 2000 = 2944 ∧
    quicly_cc_calc_initial_cwnd 1 2000 = max 1 QUICLY_MIN_CWND * min 2000 1472 % U32 :=
  ⟨by decide, C8_clamped_product_mod 1 2000 (by decide)⟩

/-- Any single handler call can only raise cwnd_maximum and lower
cwnd_minimum. -/
theorem ccStep_watermarks (cc : quicly_cc_t) (e : Event) :
    cc.cwnd_maximum ≤ (ccStep cc e).cwnd_maximum ∧
    (ccStep cc e).cwnd_minimum ≤ cc.cwnd_minimum := by
  cases e with
  | acked c =>
    simp only [ccStep, ackStep, reno_on_acked]
    split_ifs <;> (try dsimp only at *) <;> omega
  | lost c =>
    simp only [ccStep, lostStep, reno_on_lost]
    split_ifs <;> (try dsimp only at *) <;> omega
  | sent b => simp [ccStep, reno_on_sent]
  | persistentCongestion => simp [ccStep, reno_on_persistent_congestion]

/-- C7: across any sequence of handler calls, cwnd_maximum never
decreases and cwnd_minimum never increases. -/
theorem C7_watermarks_monotone (cc : quicly_cc_t) (l : List Event) :
    cc.cwnd_maximum ≤ (ccSeq cc l).cwnd_maximum ∧
    (ccSeq cc l).cwnd_minimum ≤ cc.cwnd_minimum := by
  induction l generalizing cc with
  | nil => simp [ccSeq]
  | cons e rest ih =>
    have h1 := ccStep_watermarks cc e
    have h2 := ih (ccStep cc e)
    simp only [ccSeq, List.foldl_cons] at h2 ⊢
    omega

/-- C1 counterexample: an on_lost call that does not reach the loss
threshold (here the first loss of a new episode) leaves cwnd unchanged,
so a pre-loss cwnd of 100 stays below the minimum window of 2 segments of
1472 bytes. -/
theorem C1_counterexample :
    (reno_on_lost (reno_init 100) 0 0 10 1472).cwnd < QUICLY_MIN_CWND * 1472 := by
  decide

/-- C1 amended: after any on_lost call on which the reduction fires (the
per-episode loss count reaches the threshold), cwnd is at least
QUICLY_MIN_CWND times max_udp_payload_size, provided that product fits in
32 bits; calls on which the reduction does not fire leave cwnd
untouched. -/
theorem C1_cwnd_floor_when_reduction_fires (cc : quicly_cc_t) (c : LostCall)
    (hw : QUICLY_MIN_CWND * c.max_udp_payload_size < U32)
    (hf : lostFires cc c = true) :
    QUICLY_MIN_CWND * c.max_udp_payload_size ≤ (lostStep cc c).cwnd := by
  simp only [lostFires, decide_eq_true_eq] at hf
  have hfloor : QUICLY_MIN_CWND * c.max_udp_payload_size % U32 =
      QUICLY_MIN_CWND * c.max_udp_payload_size := Nat.mod_eq_of_lt hw
  unfold lostStep reno_on_lost
  by_cases hb : cc.recovery_end ≤ c.lost_pn
  · exfalso
    simp only [if_pos hb] at hf
    norm_num [U32, QUICLY_RENO_LOSS_THRESHOLD] at hf
  · simp only [if_neg hb] at hf ⊢
    simp only [hf]
    simp only [ne_eq, not_true_eq_false, if_false]
    simp only [hfloor]
    split_ifs <;> omega

/-- Witness for C1 at a concrete input: the second in-episode loss from
the post-first-loss state c2state. -/
theorem C1_witness :
    QUICLY_MIN_CWND * c2call.max_udp_payload_size ≤ (lostStep c2state c2call).cwnd :=
  C1_cwnd_floor_when_reduction_fires c2state c2call (by decide) (by decide)

/-- C6 counterexample: a reachable lifetime in which a later reduction
assigns ssthresh a strictly larger value than it had (7699 after 7000),
because cwnd had grown past ssthresh in congestion avoidance before the
second episode. -/
theorem C6_counterexample :
    (ccSeq (reno_init 10000) c6events).ssthresh <
      (ccSeq (reno_init 10000)
        (c6events ++
          [Event.lost { bytes := 0, lost_pn := 21, next_pn := 40, max_udp_payload_size := 1000 }])).ssthresh := by
  decide

/-- C6 amended: an on_lost call either leaves ssthresh unchanged or (on a
reduction) assigns it the post-reduction cwnd, which never exceeds the
larger of the pre-loss cwnd and the clamped minimum window; it can
however exceed the previous ssthresh. -/
theorem C6_ssthresh_set_only_to_reduced_cwnd (cc : quicly_cc_t) (c : LostCall)
    (hc : cc.cwnd < U32) :
    (lostStep cc c).ssthresh = cc.ssthresh ∨
      ((lostStep cc c).ssthresh = (lostStep cc c).cwnd ∧
        (lostStep cc c).ssthresh ≤
          max cc.cwnd (QUICLY_MIN_CWND * c.max_udp_payload_size % U32)) := by
  have hred := mulBetaTrunc_le cc.cwnd hc
  unfold lostStep reno_on_lost
  by_cases hb : cc.recovery_end ≤ c.lost_pn
  · simp only [if_pos hb]
    norm_num [U32, QUICLY_RENO_LOSS_THRESHOLD]
  · simp only [if_neg hb]
    by_cases hf : (cc.num_lost_in_episode + 1) % U32 = QUICLY_RENO_LOSS_THRESHOLD
    · right
      simp only [hf, ne_eq, eq_self_iff_true, not_true_eq_false, if_false]
      try dsimp only
      constructor
      · trivial
      · split_ifs <;> omega
    · left
      simp only [ne_eq, hf, not_false_eq_true, if_true]

/-- Witness for C6 at a concrete input: the reduction call from
c2state. -/
theorem C6_witness :
    (lostStep c2state c2call).ssthresh = c2state.ssthresh ∨
      ((lostStep c2state c2call).ssthresh = (lostStep c2state c2call).cwnd ∧
        (lostStep c2state c2call).ssthresh ≤
          max c2state.cwnd (QUICLY_MIN_CWND * c2call.max_udp_payload_size % U32)) :=
  C6_ssthresh_set_only_to_reduced_cwnd c2state c2call (by decide)

/-- C4: an unsuppressed on_acked call taken in congestion avoidance adds
the acknowledged bytes to stash; if the resulting stash is below cwnd the
state change stops there, otherwise count = stash / cwnd whole windows are
converted: stash decreases by count * cwnd (the pre-increment cwnd) and
cwnd grows by count * max_udp_payload_size (uint32_t arithmetic
throughout). -/
theorem C4_congestion_avoidance_step (cc : quicly_cc_t) (c : AckCall)
    (hs : ackSuppressed cc c = false)
    (hca : cc.ssthresh ≤ cc.cwnd) :
    ((cc.stash + c.bytes) % U32 < cc.cwnd →
        ackStep cc c = { cc with stash := (cc.stash + c.bytes) % U32 }) ∧
    (cc.cwnd ≤ (cc.stash + c.bytes) % U32 →
        (ackStep cc c).stash =
          (cc.stash + c.bytes) % U32 - (cc.stash + c.bytes) % U32 / cc.cwnd * cc.cwnd ∧
        (ackStep cc c).cwnd =
          (cc.cwnd + (cc.stash + c.bytes) % U32 / cc.cwnd * c.max_udp_payload_size) % U32) := by
  simp only [ackSuppressed, decide_eq_false_iff_not] at hs
  unfold ackStep reno_on_acked
  simp only [if_neg hs, if_neg (not_lt.mpr hca)]
  constructor
  · intro h
    simp only [if_pos h]
  · intro h
    simp only [if_neg (not_lt.mpr h)]
    constructor
    · simp
    · simp [Nat.add_mod_mod]

/-- Witness for C4 at a concrete input: stash 9000 plus 6000 acknowledged
bytes is one full window of 10000, converted into one increment of
1472. -/
theorem C4_witness :
    ((c4state.stash + c4call.bytes) % U32 < c4state.cwnd →
        ackStep c4state c4call = { c4state with stash := (c4state.stash + c4call.bytes) % U32 }) ∧
    (c4state.cwnd ≤ (c4state.stash + c4call.bytes) % U32 →
        (ackStep c4state c4call).stash =
          (c4state.stash + c4call.bytes) % U32 -
            (c4state.stash + c4call.bytes) % U32 / c4state.cwnd * c4state.cwnd ∧
        (ackStep c4state c4call).cwnd =
          (c4state.cwnd +
            (c4state.stash + c4call.bytes) % U32 / c4state.cwnd * c4call.max_udp_payload_size) %
            U32) :=
  C4_congestion_avoidance_step c4state c4call (by decide) (by decide)

/-- C3 counterexample: from the reachable state reno_init 4294967294 (a
caller-chosen initial window), which is in slow start and stays in slow
start, one acknowledgment of 100 bytes wraps the uint32_t window, so the
final cwnd is not the initial cwnd plus the bytes acknowledged. -/
theorem C3_counterexample :
    (reno_init 4294967294).cwnd < (reno_init 4294967294).ssthresh ∧
    (renoAckSeq (reno_init 4294967294) [c3call]).cwnd <
      (renoAckSeq (reno_init 4294967294) [c3call]).ssthresh ∧
    c3call.bytes ≤ c3call.inflight ∧
    (renoAckSeq (reno_init 4294967294) [c3call]).cwnd ≠
      (reno_init 4294967294).cwnd + c3call.bytes := by
  decide

/-- C3 amended: over any sequence of acknowledgments that are all taken
in slow start (cwnd below ssthresh at each call) and none of which is
suppressed by the recovery check, the final cwnd equals the initial cwnd
plus the sum of the acknowledged bytes, reduced modulo 2^32 (exact
addition whenever no 32-bit overflow occurs). -/
theorem C3_slow_start_additive_mod (cc : quicly_cc_t) (l : List AckCall)
    (hc : cc.cwnd < U32) (h : slowStartRun cc l = true) :
    (renoAckSeq cc l).cwnd = (cc.cwnd + sumBytes l) % U32 := by
  induction l generalizing cc with
  | nil =>
    simp [renoAckSeq, sumBytes, Nat.mod_eq_of_lt hc]
  | cons c rest ih =>
    simp only [slowStartRun, Bool.and_eq_true, decide_eq_true_eq, Bool.not_eq_true'] at h
    obtain ⟨⟨hlt, hsup⟩, hrest⟩ := h
    have hsup' : ¬(c.largest_acked < cc.recovery_end ∧
        QUICLY_RENO_LOSS_THRESHOLD ≤ cc.num_lost_in_episode) := by
      simpa [ackSuppressed, decide_eq_false_iff_not] using hsup
    have hstep : ackStep cc c =
        { cc with
          cwnd := (cc.cwnd + c.bytes) % U32
          cwnd_maximum :=
            if cc.cwnd_maximum < (cc.cwnd + c.bytes) % U32 then (cc.cwnd + c.bytes) % U32
            else cc.cwnd_maximum } := by
      unfold ackStep reno_on_acked
      rw [if_neg hsup', if_pos hlt]
    have hc' : (ackStep cc c).cwnd < U32 := by
      rw [hstep]
      exact Nat.mod_lt _ (by norm_num [U32])
    have ih' := ih (ackStep cc c) hc' hrest
    simp only [renoAckSeq, List.foldl_cons] at ih' ⊢
    rw [ih', hstep]
    simp only [sumBytes, List.foldr_cons]
    rw [Nat.mod_add_mod, ← Nat.add_assoc]

/-- Witness for C3 at the concrete slow-start scenario of the spec:
acknowledging 14720 bytes from an initial window of 14720 gives 29440. -/
theorem C3_witness :
    (renoAckSeq (reno_init 14720) [c3wcall]).cwnd =
      ((reno_init 14720).cwnd + sumBytes [c3wcall]) % U32 :=
  C3_slow_start_additive_mod (reno_init 14720) [c3wcall] (by decide) (by decide)

/-- C9 counterexample: from the reachable state reno_init 4294967294 an
acknowledgment of 100 bytes with bytes-in-flight 100 wraps the slow-start
addition modulo 2^32, so the stored cwnd is not the mathematical sum. -/
theorem C9_counterexample :
    (reno_on_acked (reno_init 4294967294) 100 0 100 1472).cwnd ≠
      (reno_init 4294967294).cwnd + 100 := by
  decide

/-- C9 amended: when the pre-call window quantities are within realistic
bounds - cwnd, stash and the acknowledged bytes at most 2^30 and the MTU
no larger than cwnd - none of the on_acked additions wraps modulo 2^32:
the handler computes exactly the unbounded-arithmetic result. -/
theorem C9_no_wrap_within_bounds (cc : quicly_cc_t) (c : AckCall)
    (hpre : c.bytes ≤ c.inflight)
    (h1 : cc.cwnd ≤ 2 ^ 30) (h2 : cc.stash ≤ 2 ^ 30) (h3 : c.bytes ≤ 2 ^ 30)
    (h4 : c.max_udp_payload_size ≤ cc.cwnd) :
    ackStep cc c =
      reno_on_acked_exact cc c.bytes c.largest_acked c.inflight c.max_udp_payload_size := by
  have ha : (cc.cwnd + c.bytes) % U32 = cc.cwnd + c.bytes :=
    Nat.mod_eq_of_lt (by unfold U32; omega)
  have hst : (cc.stash + c.bytes) % U32 = cc.stash + c.bytes :=
    Nat.mod_eq_of_lt (by unfold U32; omega)
  have hcnt : (cc.stash + c.bytes) / cc.cwnd * c.max_udp_payload_size ≤ cc.stash + c.bytes :=
    calc (cc.stash + c.bytes) / cc.cwnd * c.max_udp_payload_size
        ≤ (cc.stash + c.bytes) / cc.cwnd * cc.cwnd := Nat.mul_le_mul_left _ h4
      _ ≤ cc.stash + c.bytes := Nat.div_mul_le_self _ _
  have hcm : (cc.stash + c.bytes) / cc.cwnd * c.max_udp_payload_size % U32 =
      (cc.stash + c.bytes) / cc.cwnd * c.max_udp_payload_size :=
    Nat.mod_eq_of_lt (by unfold U32; omega)
  have hcw : (cc.cwnd + (cc.stash + c.bytes) / cc.cwnd * c.max_udp_payload_size) % U32 =
      cc.cwnd + (cc.stash + c.bytes) / cc.cwnd * c.max_udp_payload_size :=
    Nat.mod_eq_of_lt (by unfold U32; omega)
  unfold ackStep reno_on_acked reno_on_acked_exact
  dsimp only
  rw [ha, hst, hcm, hcw]

/-- Witness for C9 at a concrete input: the congestion-avoidance step
from c4state computes the exact result. -/
theorem C9_witness :
    ackStep c4state c4call =
      reno_on_acked_exact c4state c4call.bytes c4call.largest_acked c4call.inflight
        c4call.max_udp_payload_size :=
  C9_no_wrap_within_bounds c4state c4call (by decide) (by decide) (by decide) (by decide)
    (by decide)

/-- An in-episode loss report that does not reach the threshold only
increments the per-episode loss counter. -/
theorem lostStep_inEpisode_no_fire (cc : quicly_cc_t) (c : LostCall)
    (hb : c.lost_pn < cc.recovery_end)
    (hnf : (cc.num_lost_in_episode + 1) % U32 ≠ QUICLY_RENO_LOSS_THRESHOLD) :
    lostStep cc c =
      { cc with num_lost_in_episode := (cc.num_lost_in_episode + 1) % U32 } := by
  unfold lostStep reno_on_lost
  rw [if_neg (not_le.mpr hb)]
  dsimp only
  rw [if_pos hnf]

/-- Any in-episode loss report keeps recovery_end and increments the
per-episode loss counter modulo 2^32. -/
theorem lostStep_inEpisode_fields (cc : quicly_cc_t) (c : LostCall)
    (hb : c.lost_pn < cc.recovery_end) :
    (lostStep cc c).recovery_end = cc.recovery_end ∧
    (lostStep cc c).num_lost_in_episode = (cc.num_lost_in_episode + 1) % U32 := by
  unfold lostStep reno_on_lost
  rw [if_neg (not_le.mpr hb)]
  dsimp only
  split_ifs <;> exact ⟨rfl, rfl⟩

/-- Inside an episode the fire test reduces to the incremented counter
reaching the threshold. -/
theorem lostFires_inEpisode (cc : quicly_cc_t) (c : LostCall)
    (hb : c.lost_pn < cc.recovery_end) :
    lostFires cc c =
      decide ((cc.num_lost_in_episode + 1) % U32 = QUICLY_RENO_LOSS_THRESHOLD) := by
  unfold lostFires
  rw [if_neg (not_le.mpr hb)]

/-- C2 amended: over any sequence of in-episode losses (all packet
numbers below the recovery_end of the starting state) whose total count
does not wrap the 32-bit counter, recovery_end is preserved, each loss
increments num_lost_in_episode by one, the reduction branch runs exactly
once - on the call on which the counter first reaches the threshold, and
never if the counter starts past it - and only that call can decrease
cwnd. -/
theorem C2_one_reduction_per_episode (cc : quicly_cc_t) (l : List LostCall)
    (hall : ∀ c ∈ l, c.lost_pn < cc.recovery_end)
    (hn : cc.num_lost_in_episode + l.length < U32) :
    (renoLostSeq cc l).recovery_end = cc.recovery_end ∧
    (renoLostSeq cc l).num_lost_in_episode = cc.num_lost_in_episode + l.length ∧
    countFired cc l =
      (if cc.num_lost_in_episode + 1 ≤ QUICLY_RENO_LOSS_THRESHOLD ∧
          QUICLY_RENO_LOSS_THRESHOLD ≤ cc.num_lost_in_episode + l.length then 1 else 0) ∧
    countCwndDecr cc l ≤ countFired cc l := by
  induction l generalizing cc with
  | nil =>
    refine ⟨rfl, by simp [renoLostSeq], ?_, by simp [countFired, countCwndDecr]⟩
    simp only [countFired, List.length_nil, Nat.add_zero]
    rw [if_neg (by simp only [QUICLY_RENO_LOSS_THRESHOLD]; omega)]
  | cons c rest ih =>
    have hb : c.lost_pn < cc.recovery_end := hall c (List.mem_cons_self c rest)
    have hrest0 : ∀ x ∈ rest, x.lost_pn < cc.recovery_end := fun x hx =>
      hall x (List.mem_cons_of_mem c hx)
    have hlen : (c :: rest).length = rest.length + 1 := List.length_cons c rest
    have hnW : cc.num_lost_in_episode + rest.length + 1 < U32 := by
      rw [hlen] at hn
      omega
    have hmod : (cc.num_lost_in_episode + 1) % U32 = cc.num_lost_in_episode + 1 :=
      Nat.mod_eq_of_lt (by omega)
    obtain ⟨hrec1, hnum1⟩ := lostStep_inEpisode_fields cc c hb
    have hall1 : ∀ x ∈ rest, x.lost_pn < (lostStep cc c).recovery_end := by
      rw [hrec1]
      exact hrest0
    have hn1 : (lostStep cc c).num_lost_in_episode + rest.length < U32 := by
      rw [hnum1, hmod]
      omega
    obtain ⟨ih1, ih2, ih3, ih4⟩ := ih (lostStep cc c) hall1 hn1
    have hseq : renoLostSeq cc (c :: rest) = renoLostSeq (lostStep cc c) rest := by
      simp [renoLostSeq, List.foldl_cons, lostStep]
    refine ⟨?_, ?_, ?_, ?_⟩
    · rw [hseq, ih1, hrec1]
    · rw [hseq, ih2, hnum1, hmod, hlen]
      omega
    · have hcf : countFired cc (c :: rest) =
          (if lostFires cc c then 1 else 0) + countFired (lostStep cc c) rest := rfl
      rw [hcf, ih3, hnum1, hmod, lostFires_inEpisode cc c hb, hmod, hlen]
      simp only [QUICLY_RENO_LOSS_THRESHOLD, decide_eq_true_eq]
      split_ifs <;> omega
    · have hcd : countCwndDecr cc (c :: rest) =
          (if (lostStep cc c).cwnd < cc.cwnd then 1 else 0) +
            countCwndDecr (lostStep cc c) rest := rfl
      have hcf : countFired cc (c :: rest) =
          (if lostFires cc c then 1 else 0) + countFired (lostStep cc c) rest := rfl
      rw [hcd, hcf]
      by_cases hfire : lostFires cc c = true
      · rw [if_pos hfire]
        have h4 := ih4
        split_ifs <;> omega
      · have hf' : (cc.num_lost_in_episode + 1) % U32 ≠ QUICLY_RENO_LOSS_THRESHOLD := by
          rw [lostFires_inEpisode cc c hb] at hfire
          simpa [decide_eq_true_eq] using hfire
        have hcw : (lostStep cc c).cwnd = cc.cwnd := by
          rw [lostStep_inEpisode_no_fire cc c hb hf']
        rw [if_neg hfire, hcw]
        simp only [lt_self_iff_false, if_false]
        omega

/-- Witness for C2 amended at a concrete input: two in-episode losses
from the post-first-loss state c2state. -/
theorem C2_witness :
    (renoLostSeq c2state [c2call, c2call]).recovery_end = c2state.recovery_end ∧
    (renoLostSeq c2state [c2call, c2call]).num_lost_in_episode =
      c2state.num_lost_in_episode + ([c2call, c2call] : List LostCall).length ∧
    countFired c2state [c2call, c2call] =
      (if c2state.num_lost_in_episode + 1 ≤ QUICLY_RENO_LOSS_THRESHOLD ∧
          QUICLY_RENO_LOSS_THRESHOLD ≤
            c2state.num_lost_in_episode + ([c2call, c2call] : List LostCall).length
        then 1 else 0) ∧
    countCwndDecr c2state [c2call, c2call] ≤ countFired c2state [c2call, c2call] :=
  C2_one_reduction_per_episode c2state [c2call, c2call] (by decide) (by decide)

/-- A run of identical in-episode losses none of which reaches the
threshold only advances the per-episode counter (modulo 2^32) and never
changes cwnd. -/
theorem renoLostSeq_replicate_steady (c : LostCall) (j : Nat) :
    ∀ cc : quicly_cc_t, c.lost_pn < cc.recovery_end → cc.num_lost_in_episode < U32 →
      (∀ i, i < j →
        (cc.num_lost_in_episode + 1 + i) % U32 ≠ QUICLY_RENO_LOSS_THRESHOLD) →
      renoLostSeq cc (List.replicate j c) =
        { cc with num_lost_in_episode := (cc.num_lost_in_episode + j) % U32 } ∧
      countCwndDecr cc (List.replicate j c) = 0 := by
  induction j with
  | zero =>
    intro cc hb hlt hnf
    constructor
    · have h0 : (cc.num_lost_in_episode + 0) % U32 = cc.num_lost_in_episode := by
        rw [Nat.add_zero]
        exact Nat.mod_eq_of_lt hlt
      rw [h0]
      rfl
    · rfl
  | succ jj ih =>
    intro cc hb hlt hnf
    have hf0 : (cc.num_lost_in_episode + 1) % U32 ≠ QUICLY_RENO_LOSS_THRESHOLD := by
      have h := hnf 0 (Nat.succ_pos jj)
      simpa using h
    have hstep := lostStep_inEpisode_no_fire cc c hb hf0
    have hb1 : c.lost_pn < (lostStep cc c).recovery_end := by
      rw [hstep]
      exact hb
    have hlt1 : (lostStep cc c).num_lost_in_episode < U32 := by
      rw [hstep]
      show (cc.num_lost_in_episode + 1) % U32 < U32
      exact Nat.mod_lt _ (by norm_num [U32])
    have hnf1 : ∀ i, i < jj →
        ((lostStep cc c).num_lost_in_episode + 1 + i) % U32 ≠ QUICLY_RENO_LOSS_THRESHOLD := by
      intro i hi
      have h := hnf (i + 1) (by omega)
      rw [hstep]
      show ((cc.num_lost_in_episode + 1) % U32 + 1 + i) % U32 ≠ QUICLY_RENO_LOSS_THRESHOLD
      simp only [U32, QUICLY_RENO_LOSS_THRESHOLD] at h ⊢
      omega
    obtain ⟨ihA, ihB⟩ := ih (lostStep cc c) hb1 hlt1 hnf1
    constructor
    · rw [List.replicate_succ]
      have hseq : renoLostSeq cc (c :: List.replicate jj c) =
          renoLostSeq (lostStep cc c) (List.replicate jj c) := rfl
      rw [hseq, ihA, hstep]
      congr 1
      show ((cc.num_lost_in_episode + 1) % U32 + jj) % U32 =
        (cc.num_lost_in_episode + (jj + 1)) % U32
      simp only [U32]
      omega
    · rw [List.replicate_succ]
      have hcd : countCwndDecr cc (c :: List.replicate jj c) =
          (if (lostStep cc c).cwnd < cc.cwnd then 1 else 0) +
            countCwndDecr (lostStep cc c) (List.replicate jj c) := rfl
      have hcw : (lostStep cc c).cwnd = cc.cwnd := by rw [hstep]
      rw [hcd, ihB, hcw]
      simp

/-- The cwnd-decrease count of a concatenation splits at the
intermediate state. -/
theorem countCwndDecr_append (cc : quicly_cc_t) (l1 l2 : List LostCall) :
    countCwndDecr cc (l1 ++ l2) =
      countCwndDecr cc l1 + countCwndDecr (renoLostSeq cc l1) l2 := by
  induction l1 generalizing cc with
  | nil => simp [countCwndDecr, renoLostSeq]
  | cons c rest ih =>
    simp only [List.cons_append]
    have h1 : countCwndDecr cc (c :: (rest ++ l2)) =
        (if (lostStep cc c).cwnd < cc.cwnd then 1 else 0) +
          countCwndDecr (lostStep cc c) (rest ++ l2) := rfl
    have h2 : countCwndDecr cc (c :: rest) =
        (if (lostStep cc c).cwnd < cc.cwnd then 1 else 0) +
          countCwndDecr (lostStep cc c) rest := rfl
    have h3 : renoLostSeq cc (c :: rest) = renoLostSeq (lostStep cc c) rest := rfl
    rw [h1, h2, h3, ih]
    omega

/-- A replicated list satisfies all of any test its element passes. -/
theorem allReplicateTrue {α : Type} (n : Nat) (a : α) (p : α → Bool) (h : p a = true) :
    (List.replicate n a).all p = true := by
  induction n with
  | zero => rfl
  | succ m ih => simp [List.replicate_succ, List.all_cons, h, ih]

/-- Unfolding equation of countCwndDecr on a cons cell. -/
theorem countCwndDecr_cons (cc : quicly_cc_t) (c : LostCall) (l : List LostCall) :
    countCwndDecr cc (c :: l) =
      (if (lostStep cc c).cwnd < cc.cwnd then 1 else 0) + countCwndDecr (lostStep cc c) l :=
  rfl

/-- C2 counterexample: starting right after the first loss of an episode
(state c2state, recovery_end 100), a sequence of 2^32 + 1 further losses
of packet 5 - every one of them inside the episode - makes the 32-bit
per-episode counter wrap and re-reach the threshold, so cwnd is decreased
on two distinct calls of the sequence (10000 to 7000, and later 7000 to
4900). -/
theorem C2_counterexample :
    c2calls.all (inEpisodeOf c2state) = true ∧
    countCwndDecr c2state c2calls = 2 := by
  constructor
  · unfold c2calls
    exact allReplicateTrue _ _ _ (by decide)
  · have hdecomp : c2calls = c2call :: (List.replicate (U32 - 1) c2call ++ [c2call]) := by
      unfold c2calls
      rw [show U32 + 1 = 1 + ((U32 - 1) + 1) from by norm_num [U32]]
      rw [List.replicate_add, List.replicate_add]
      simp [List.replicate_one]
    rw [hdecomp]
    have hs1 : lostStep c2state c2call = S1lit := by decide
    rw [countCwndDecr_cons, hs1, countCwndDecr_append]
    obtain ⟨hA, hB⟩ := renoLostSeq_replicate_steady c2call (U32 - 1) S1lit
      (by decide) (by decide)
      (by
        intro i hi
        have h2 : S1lit.num_lost_in_episode = 2 := rfl
        rw [h2]
        simp only [U32, QUICLY_RENO_LOSS_THRESHOLD] at hi ⊢
        omega)
    rw [hB, hA]
    have hs2 : ({ S1lit with
        num_lost_in_episode := (S1lit.num_lost_in_episode + (U32 - 1)) % U32 } : quicly_cc_t) =
        S2lit := by decide
    rw [hs2]
    decide
